import Mathlib

/-!
Verification of the creature-synth oscillator and limb-animation core.

The Rust source (src/oscillator.rs, src/limb.rs) computes over `f32`; here
every `f32` is modelled by a real number, so statements about floating-point
tolerance become exact statements over ℝ.  Rust's `f32::fract` is
`x - x.trunc()` (truncation toward zero), which we model faithfully.
-/

namespace CreatureSynth

noncomputable section

/-- Rust `f32::trunc`: round toward zero. -/
def trunc (x : ℝ) : ℝ := if 0 ≤ x then (⌊x⌋ : ℤ) else (⌈x⌉ : ℤ)

/-- Rust `f32::fract`: `x - x.trunc()`. -/
def fract (x : ℝ) : ℝ := x - trunc x

/-- The `std::f32::consts::TAU`, the full turn `2π`. -/
def TAU : ℝ := 2 * Real.pi

/-- The `enum Wave { Flat, Sine, Square, Triangle }` from src/oscillator.rs. -/
inductive Wave
| Flat
| Sine
| Square
| Triangle

/-- The `struct Frequency { current, target, tau }` from src/oscillator.rs. -/
structure Frequency where
  current : ℝ
  target : ℝ
  tau : ℝ

/-- The `impl Default for Frequency`: current 0, target 0, tau 0.03. -/
def Frequency.default : Frequency :=
  { current := 0, target := 0, tau := 0.03 }

/-- The `Frequency::new(hz)`: current and target set to `hz`, default tau. -/
def Frequency.new (hz : ℝ) : Frequency :=
  { current := hz, target := hz, tau := Frequency.default.tau }

/-- The `Frequency::set_target(hz)`: stores `hz.max(0.0)` as the target. -/
def Frequency.set_target (f : Frequency) (hz : ℝ) : Frequency :=
  { f with target := max hz 0 }

/-- The `Frequency::set_tau(tau)`: stores `tau.as_secs_f32().max(0.0)`. -/
def Frequency.set_tau (f : Frequency) (t : ℝ) : Frequency :=
  { f with tau := max t 0 }

/-- The `Frequency::update(dt)` from src/oscillator.rs, returning the mutated
state paired with the returned `f32`. -/
def Frequency.update (f : Frequency) (dt : ℝ) : Frequency × ℝ :=
  if dt ≤ 0 then (f, f.current)
  else if f.tau ≤ 0 then ({ f with current := f.target }, f.target)
  else
    let alpha := 1 - Real.exp (-dt / f.tau)
    let c := f.current + (f.target - f.current) * alpha
    ({ f with current := c }, c)

/-- The `struct Oscillator { wave, amplitude, frequency, phase }`. -/
structure Oscillator where
  wave : Wave
  amplitude : ℝ
  frequency : Frequency
  phase : ℝ

/-- The `Oscillator::new(wave, amplitude, frequency)`: phase starts at 0. -/
def Oscillator.new (w : Wave) (a hz : ℝ) : Oscillator :=
  { wave := w, amplitude := a, frequency := Frequency.new hz, phase := 0 }

/-- The `Oscillator::set_frequency(hz)`: forwards to `Frequency::set_target`. -/
def Oscillator.set_frequency (o : Oscillator) (hz : ℝ) : Oscillator :=
  { o with frequency := o.frequency.set_target hz }

/-- The `Oscillator::tick(dt)` from src/oscillator.rs: no-op for `dt ≤ 0`,
otherwise averages the pre- and post-update frequency and advances the
phase through `fract`. -/
def Oscillator.tick (o : Oscillator) (dt : ℝ) : Oscillator :=
  if dt ≤ 0 then o
  else
    let f0 := o.frequency.current
    let fu := o.frequency.update dt
    let f1 := fu.2
    let f_avg := 0.5 * (f0 + f1)
    { o with frequency := fu.1, phase := fract (o.phase + f_avg * dt) }

/-- The `Oscillator::sample()` from src/oscillator.rs. -/
def Oscillator.sample (o : Oscillator) : ℝ :=
  match o.wave with
  | Wave.Flat => 0
  | Wave.Sine => o.amplitude * Real.sin (TAU * o.phase)
  | Wave.Square =>
      if 0 ≤ Real.sin (TAU * o.phase) then o.amplitude else -o.amplitude
  | Wave.Triangle =>
      let p := fract (o.phase + 0.25)
      let tri := 1 - 4 * |p - 0.5|
      o.amplitude * tri

/-- The `enum LimbSegmentTypeId { Rectangle, Disk }` from src/limb.rs. -/
inductive LimbSegmentTypeId
| Rectangle
| Disk

/-- The `RectType::flex_for_segment`: `1.0 + (1.1 - 1.0) * i.powf(1.1)`. -/
def RectType.flex_for_segment (segment_index : ℕ) : ℝ :=
  1 + (1.1 - 1) * (segment_index : ℝ) ^ (1.1 : ℝ)

/-- The `DiskType::flex_for_segment`: `1.0 + (1.05 - 1.0) * i.powf(1.0)`. -/
def DiskType.flex_for_segment (segment_index : ℕ) : ℝ :=
  1 + (1.05 - 1) * (segment_index : ℝ) ^ (1.0 : ℝ)

/-- The `LimbSegmentTypeId::flex_for_segment`: static dispatch on the type id. -/
def LimbSegmentTypeId.flex_for_segment
    (ty : LimbSegmentTypeId) (segment_index : ℕ) : ℝ :=
  match ty with
  | LimbSegmentTypeId.Rectangle => RectType.flex_for_segment segment_index
  | LimbSegmentTypeId.Disk => DiskType.flex_for_segment segment_index

/-- A rotation about the z axis; `Quat::from_rotation_z` restricted to the
single axis the animator uses, represented by its angle in radians. -/
structure Quat where
  zAngle : ℝ

/-- The `Quat::from_rotation_z(angle)`. -/
def Quat.from_rotation_z (angle : ℝ) : Quat := { zAngle := angle }

/-- The mutable part of a segment's `Transform`: its rotation. -/
structure Transform where
  rotation : Quat

/-- The `LimbSegment` component plus its transform: immutable index and type id,
mutable rotation. -/
structure LimbSegment where
  segment_index : ℕ
  type_id : LimbSegmentTypeId
  transform : Transform

/-- A limb entity: one oscillator and its descendant chain of segments. -/
structure Limb where
  oscillator : Oscillator
  segments : List LimbSegment

/-- The body of `animate_limb_segments` for one descendant segment:
`transform.rotation = Quat::from_rotation_z(angle * flex)`. -/
def animate_segment (angle : ℝ) (s : LimbSegment) : LimbSegment :=
  let flex := s.type_id.flex_for_segment s.segment_index
  { s with transform :=
      { s.transform with rotation := Quat.from_rotation_z (angle * flex) } }

/-- The body of `animate_limb_segments` for one limb: sample the limb's
oscillator once, then rewrite every descendant segment's rotation. -/
def animate_limb (l : Limb) : Limb :=
  let angle := l.oscillator.sample
  { l with segments := l.segments.map (animate_segment angle) }

/-- The `animate_limb_segments` from src/limb.rs: one pass over all limbs. -/
def animate_limb_segments (limbs : List Limb) : List Limb :=
  limbs.map animate_limb

end

/-! ## Helper lemmas -/

/-- For a non-negative argument Rust `fract` agrees with `Int.fract`. -/
theorem fract_of_nonneg {x : ℝ} (hx : 0 ≤ x) : fract x = Int.fract x := by
  unfold fract trunc
  rw [if_pos hx]
  exact Int.self_sub_floor x

/-- Rust `fract` of a non-negative number lies in `[0, 1)`. -/
theorem fract_mem_Ico {x : ℝ} (hx : 0 ≤ x) : 0 ≤ fract x ∧ fract x < 1 := by
  rw [fract_of_nonneg hx]
  exact ⟨Int.fract_nonneg x, Int.fract_lt_one x⟩

/-- The `update` never changes the target. -/
theorem Frequency.update_target_eq (f : Frequency) (dt : ℝ) :
    (f.update dt).1.target = f.target := by
  unfold Frequency.update
  split
  · rfl
  · split <;> rfl

/-- The `update` never changes the time constant. -/
theorem Frequency.update_tau_eq (f : Frequency) (dt : ℝ) :
    (f.update dt).1.tau = f.tau := by
  unfold Frequency.update
  split
  · rfl
  · split <;> rfl

/-- The `update` returns the (possibly new) current frequency. -/
theorem Frequency.update_snd_eq (f : Frequency) (dt : ℝ) :
    (f.update dt).2 = (f.update dt).1.current := by
  unfold Frequency.update
  split
  · rfl
  · split <;> rfl

/-- The `update` keeps the current frequency non-negative: the new current is a
convex combination of the old current and the target. -/
theorem Frequency.update_current_nonneg (f : Frequency) (dt : ℝ)
    (hc : 0 ≤ f.current) (ht : 0 ≤ f.target) :
    0 ≤ (f.update dt).1.current := by
  unfold Frequency.update
  split
  · exact hc
  · split
    · exact ht
    · rename_i h1 h2
      push_neg at h1 h2
      dsimp only
      have hE0 : 0 < Real.exp (-dt / f.tau) := Real.exp_pos _
      have hE1 : Real.exp (-dt / f.tau) < 1 := by
        rw [Real.exp_lt_one_iff]
        exact div_neg_of_neg_of_pos (by linarith) h2
      nlinarith [mul_nonneg hc hE0.le, mul_nonneg ht (by linarith : (0 : ℝ) ≤ 1 - Real.exp (-dt / f.tau))]

/-- The invariant of the oscillator state used for phase preservation:
phase normalized into `[0,1)` and non-negative frequencies. -/
def OscInv (o : Oscillator) : Prop :=
  0 ≤ o.phase ∧ o.phase < 1 ∧ 0 ≤ o.frequency.current ∧ 0 ≤ o.frequency.target

/-- One `tick` preserves the oscillator invariant. -/
theorem tick_preserves_inv {o : Oscillator} (dt : ℝ) (h : OscInv o) :
    OscInv (o.tick dt) := by
  obtain ⟨hp0, hp1, hc, ht⟩ := h
  unfold Oscillator.tick
  split
  · exact ⟨hp0, hp1, hc, ht⟩
  · rename_i hdt
    push_neg at hdt
    dsimp only
    have hc1 : 0 ≤ (o.frequency.update dt).1.current :=
      Frequency.update_current_nonneg o.frequency dt hc ht
    have hs : 0 ≤ (o.frequency.update dt).2 := by
      rw [Frequency.update_snd_eq]; exact hc1
    have hacc : 0 ≤ o.phase + 0.5 * (o.frequency.current + (o.frequency.update dt).2) * dt := by
      have : 0 ≤ 0.5 * (o.frequency.current + (o.frequency.update dt).2) * dt := by
        apply mul_nonneg (by positivity) hdt.le
      linarith
    obtain ⟨hf0, hf1⟩ := fract_mem_Ico hacc
    refine ⟨hf0, hf1, hc1, ?_⟩
    rw [Frequency.update_target_eq]
    exact ht

/-- The invariant is preserved by any finite sequence of ticks. -/
theorem foldl_tick_inv {o : Oscillator} (dts : List ℝ) (h : OscInv o) :
    OscInv (dts.foldl Oscillator.tick o) := by
  induction dts generalizing o with
  | nil => exact h
  | cons d ds ih => exact ih (tick_preserves_inv d h)

/-! ## Claim theorems -/

/-- C2: `Frequency::update(dt)` returns `current` unchanged (mutating
nothing) when `dt ≤ 0`; sets `current = target` and returns it when
`tau ≤ 0`; otherwise sets `current += (target - current) * alpha` with
`alpha = 1 - exp(-dt/tau)` and returns the new current. -/
theorem Frequency.update_spec (f : Frequency) (dt : ℝ) :
    (dt ≤ 0 → f.update dt = (f, f.current)) ∧
    (0 < dt → f.tau ≤ 0 →
      f.update dt = ({ f with current := f.target }, f.target)) ∧
    (0 < dt → 0 < f.tau →
      f.update dt =
        ({ f with current :=
            f.current +
              (f.target - f.current) * (1 - Real.exp (-dt / f.tau)) },
          f.current +
            (f.target - f.current) * (1 - Real.exp (-dt / f.tau)))) := by
  refine ⟨fun h => ?_, fun h1 h2 => ?_, fun h1 h2 => ?_⟩
  · simp [Frequency.update, h]
  · simp [Frequency.update, not_le.mpr h1, h2]
  · simp [Frequency.update, not_le.mpr h1, not_le.mpr h2]

/-- Witness for C2: at `dt = 1` with `tau = 0` the smoother snaps to the
target frequency. -/
theorem Frequency.update_spec_witness :
    Frequency.update ⟨1, 2, 0⟩ 1 = (⟨2, 2, 0⟩, 2) :=
  (Frequency.update_spec ⟨1, 2, 0⟩ 1).2.1 (by norm_num) (by norm_num)

/-- C1: with `dt > 0`, `tick` reads `f0 = frequency.current`, computes
`f1 = frequency.update(dt)`, and sets the phase to
`fract(phase + 0.5*(f0+f1)*dt)`; with `dt ≤ 0` it leaves the whole
oscillator unchanged. -/
theorem Oscillator.tick_spec (o : Oscillator) (dt : ℝ) :
    (0 < dt →
      o.tick dt =
        { o with
            frequency := (o.frequency.update dt).1,
            phase := fract (o.phase +
              0.5 * (o.frequency.current + (o.frequency.update dt).2) * dt) }) ∧
    (dt ≤ 0 → o.tick dt = o) := by
  constructor
  · intro h
    simp [Oscillator.tick, not_le.mpr h]
  · intro h
    simp [Oscillator.tick, h]

/-- Witness for C1: a concrete tick at `dt = 1` with frequency snapped at
2 Hz wraps the phase from 2 full cycles back to 0. -/
theorem Oscillator.tick_spec_witness :
    Oscillator.tick ⟨Wave.Flat, 1, ⟨2, 2, 0⟩, 0⟩ 1 =
      ⟨Wave.Flat, 1, ⟨2, 2, 0⟩, 0⟩ := by
  rw [(Oscillator.tick_spec ⟨Wave.Flat, 1, ⟨2, 2, 0⟩, 0⟩ 1).1 (by norm_num)]
  have hu : Frequency.update ⟨2, 2, 0⟩ 1 = (⟨2, 2, 0⟩, 2) := by
    norm_num [Frequency.update]
  norm_num [hu, fract, trunc]

/-- C5: `sample()` is a pure function of the stored phase, amplitude and
wave kind (in this functional model, purity and idempotence are
automatic), returning 0 for Flat, `a·sin(2π·phase)` for Sine, `±a` by the
sign of `sin(2π·phase)` for Square, and
`a·(1 − 4·|fract(phase + 0.25) − 0.5|)` for Triangle. -/
theorem Oscillator.sample_spec (a phase : ℝ) (fr : Frequency) :
    Oscillator.sample ⟨Wave.Flat, a, fr, phase⟩ = 0 ∧
    Oscillator.sample ⟨Wave.Sine, a, fr, phase⟩ =
      a * Real.sin (2 * Real.pi * phase) ∧
    Oscillator.sample ⟨Wave.Square, a, fr, phase⟩ =
      (if 0 ≤ Real.sin (2 * Real.pi * phase) then a else -a) ∧
    Oscillator.sample ⟨Wave.Triangle, a, fr, phase⟩ =
      a * (1 - 4 * |fract (phase + 0.25) - 0.5|) := by
  refine ⟨rfl, ?_, ?_, rfl⟩ <;> simp [Oscillator.sample, TAU]

/-- C3: starting from phase in `[0,1)` and non-negative current and target
frequencies, any finite sequence of ticks (arbitrary `dt` values) leaves the
phase in `[0,1)`, never negative. -/
theorem Oscillator.tick_phase_invariant (o : Oscillator) (dts : List ℝ)
    (hp0 : 0 ≤ o.phase) (hp1 : o.phase < 1)
    (hc : 0 ≤ o.frequency.current) (ht : 0 ≤ o.frequency.target) :
    0 ≤ (dts.foldl Oscillator.tick o).phase ∧
      (dts.foldl Oscillator.tick o).phase < 1 := by
  have h := foldl_tick_inv dts (o := o) ⟨hp0, hp1, hc, ht⟩
  exact ⟨h.1, h.2.1⟩

/-- Witness for C3: one tick of a concrete oscillator keeps the phase in
`[0,1)`. -/
theorem Oscillator.tick_phase_invariant_witness :
    0 ≤ (([(1 : ℝ)]).foldl Oscillator.tick ⟨Wave.Flat, 1, ⟨0, 0, 0⟩, 0⟩).phase ∧
      (([(1 : ℝ)]).foldl Oscillator.tick ⟨Wave.Flat, 1, ⟨0, 0, 0⟩, 0⟩).phase < 1 :=
  Oscillator.tick_phase_invariant ⟨Wave.Flat, 1, ⟨0, 0, 0⟩, 0⟩ [(1 : ℝ)]
    (by norm_num) (by norm_num) (by norm_num) (by norm_num)

/-- The invariant claimed for `Frequency`: non-negative current, target and
time constant. -/
def FreqInv (f : Frequency) : Prop :=
  0 ≤ f.current ∧ 0 ≤ f.target ∧ 0 ≤ f.tau

/-- Counterexample to C7 as stated: `Frequency::new` does not clamp, so a
negative initial Hz violates the invariant right after construction. -/
theorem Frequency.new_invariant_counterexample :
    ¬ FreqInv (Frequency.new (-1)) := by
  intro h
  have h1 := h.1
  simp only [Frequency.new, Frequency.default] at h1
  norm_num at h1

/-- C7 (amended): for any non-negative initial Hz, `Frequency::new`
establishes the invariant `current, target, tau ≥ 0`, and the invariant is
preserved by `set_target`, `set_tau` and `update`. -/
theorem Frequency.invariant_preserved :
    (∀ hz : ℝ, 0 ≤ hz → FreqInv (Frequency.new hz)) ∧
    (∀ (f : Frequency) (hz : ℝ), FreqInv f → FreqInv (f.set_target hz)) ∧
    (∀ (f : Frequency) (t : ℝ), FreqInv f → FreqInv (f.set_tau t)) ∧
    (∀ (f : Frequency) (dt : ℝ), FreqInv f → FreqInv (f.update dt).1) := by
  refine ⟨?_, ?_, ?_, ?_⟩
  · intro hz h
    refine ⟨h, h, ?_⟩
    norm_num [Frequency.new, Frequency.default]
  · intro f hz h
    exact ⟨h.1, le_max_right hz 0, h.2.2⟩
  · intro f t h
    exact ⟨h.1, h.2.1, le_max_right t 0⟩
  · intro f dt h
    refine ⟨Frequency.update_current_nonneg f dt h.1 h.2.1, ?_, ?_⟩
    · rw [Frequency.update_target_eq]; exact h.2.1
    · rw [Frequency.update_tau_eq]; exact h.2.2

/-- Witness for C7 (amended): the invariant holds after `Frequency::new(1)`. -/
theorem Frequency.invariant_preserved_witness : FreqInv (Frequency.new 1) :=
  Frequency.invariant_preserved.1 1 (by norm_num)

/-- The `update` with a non-positive `dt` is the identity. -/
theorem update_of_nonpos {f : Frequency} {dt : ℝ} (h : dt ≤ 0) :
    f.update dt = (f, f.current) := by
  unfold Frequency.update
  rw [if_pos h]

/-- The current frequency after `update` in the smoothing branch. -/
theorem update_current_of_pos {f : Frequency} {dt : ℝ}
    (hdt : 0 < dt) (htau : 0 < f.tau) :
    (f.update dt).1.current =
      f.current + (f.target - f.current) * (1 - Real.exp (-dt / f.tau)) := by
  unfold Frequency.update
  rw [if_neg (not_le.mpr hdt), if_neg (not_le.mpr htau)]

/-- C4: with `tau > 0` and `dt1, dt2 ≥ 0`, updating by `dt1` then `dt2`
produces the same current frequency as a single update by `dt1 + dt2`
(exactly, in the real-number model). -/
theorem Frequency.update_compose (f : Frequency) (dt1 dt2 : ℝ)
    (htau : 0 < f.tau) (h1 : 0 ≤ dt1) (h2 : 0 ≤ dt2) :
    ((f.update dt1).1.update dt2).1.current =
      (f.update (dt1 + dt2)).1.current := by
  rcases h1.eq_or_lt with h0 | hdt1
  · subst h0
    rw [update_of_nonpos le_rfl]
    simp
  rcases h2.eq_or_lt with h0 | hdt2
  · subst h0
    rw [update_of_nonpos le_rfl]
    simp
  · have htau1 : 0 < (f.update dt1).1.tau := by
      rw [Frequency.update_tau_eq]; exact htau
    rw [update_current_of_pos hdt2 htau1, update_current_of_pos hdt1 htau,
        update_current_of_pos (by linarith) htau,
        Frequency.update_target_eq, Frequency.update_tau_eq]
    have hsplit : Real.exp (-(dt1 + dt2) / f.tau) =
        Real.exp (-dt1 / f.tau) * Real.exp (-dt2 / f.tau) := by
      rw [← Real.exp_add]
      congr 1
      ring
    rw [hsplit]
    ring

/-- Witness for C4: composition at `dt1 = dt2 = 0` with `tau = 1`. -/
theorem Frequency.update_compose_witness :
    ((Frequency.update ⟨0, 1, 1⟩ 0).1.update 0).1.current =
      (Frequency.update ⟨0, 1, 1⟩ (0 + 0)).1.current :=
  Frequency.update_compose ⟨0, 1, 1⟩ 0 0 (by norm_num) (by norm_num) (by norm_num)

/-- C8: for both canonical flex policies, `flex(i) = 1 + (base-1)·i^pow` is
monotone non-decreasing in the segment index, always at least 1, and
exactly 1 at index 0. -/
theorem flex_for_segment_monotone (ty : LimbSegmentTypeId) (i j : ℕ)
    (hij : i ≤ j) :
    ty.flex_for_segment i ≤ ty.flex_for_segment j ∧
    1 ≤ ty.flex_for_segment i ∧
    ty.flex_for_segment 0 = 1 := by
  have hcast : (i : ℝ) ≤ (j : ℝ) := by exact_mod_cast hij
  cases ty
  case Rectangle =>
    unfold LimbSegmentTypeId.flex_for_segment RectType.flex_for_segment
    refine ⟨?_, ?_, ?_⟩
    · have h := Real.rpow_le_rpow (by positivity) hcast (by norm_num : (0:ℝ) ≤ 1.1)
      nlinarith
    · have h := Real.rpow_nonneg (by positivity : (0:ℝ) ≤ (i:ℝ)) 1.1
      nlinarith
    · rw [Nat.cast_zero, Real.zero_rpow (by norm_num : (1.1:ℝ) ≠ 0)]
      norm_num
  case Disk =>
    unfold LimbSegmentTypeId.flex_for_segment DiskType.flex_for_segment
    have hone : (1.0 : ℝ) = 1 := by norm_num
    refine ⟨?_, ?_, ?_⟩
    · rw [hone, Real.rpow_one, Real.rpow_one]
      nlinarith
    · rw [hone, Real.rpow_one]
      have hi : (0:ℝ) ≤ (i:ℝ) := Nat.cast_nonneg i
      nlinarith
    · rw [hone, Real.rpow_one, Nat.cast_zero]
      norm_num

/-- Witness for C8: both facts at indices 0 and 1 of the Rectangle policy. -/
theorem flex_for_segment_monotone_witness :
    LimbSegmentTypeId.Rectangle.flex_for_segment 0 ≤
      LimbSegmentTypeId.Rectangle.flex_for_segment 1 ∧
    1 ≤ LimbSegmentTypeId.Rectangle.flex_for_segment 0 ∧
    LimbSegmentTypeId.Rectangle.flex_for_segment 0 = 1 :=
  flex_for_segment_monotone LimbSegmentTypeId.Rectangle 0 1 (by norm_num)

/-- Counterexample to C10 as stated: a reachable oscillator with negative
amplitude (nothing clamps the amplitude at construction) and phase 0 has
`sample() = 0` outside `[-amplitude, amplitude]`. -/
theorem sample_range_counterexample :
    0 ≤ (Oscillator.new Wave.Flat (-1) 0).phase ∧
    (Oscillator.new Wave.Flat (-1) 0).phase < 1 ∧
    ¬ (-(Oscillator.new Wave.Flat (-1) 0).amplitude ≤
          (Oscillator.new Wave.Flat (-1) 0).sample ∧
        (Oscillator.new Wave.Flat (-1) 0).sample ≤
          (Oscillator.new Wave.Flat (-1) 0).amplitude) := by
  refine ⟨by norm_num [Oscillator.new], by norm_num [Oscillator.new], ?_⟩
  intro h
  have h2 := h.2
  simp only [Oscillator.new, Oscillator.sample] at h2
  norm_num at h2

/-- C10 (amended): for a non-negative amplitude and phase in `[0,1)`,
`sample()` lies in `[-amplitude, amplitude]` for every wave kind. -/
theorem sample_mem_range (o : Oscillator) (ha : 0 ≤ o.amplitude)
    (hp0 : 0 ≤ o.phase) (hp1 : o.phase < 1) :
    -o.amplitude ≤ o.sample ∧ o.sample ≤ o.amplitude := by
  obtain ⟨w, a, fr, p⟩ := o
  simp only at ha hp0 hp1
  cases w
  case Flat =>
    simp only [Oscillator.sample]
    constructor <;> linarith
  case Sine =>
    simp only [Oscillator.sample]
    have hs1 : Real.sin (TAU * p) ≤ 1 := Real.sin_le_one _
    have hs2 : -1 ≤ Real.sin (TAU * p) := Real.neg_one_le_sin _
    constructor <;> nlinarith
  case Square =>
    simp only [Oscillator.sample]
    split <;> constructor <;> linarith
  case Triangle =>
    simp only [Oscillator.sample]
    have hge : (0:ℝ) ≤ p + 0.25 := by linarith
    obtain ⟨hf0, hf1⟩ := fract_mem_Ico hge
    have habs : |fract (p + 0.25) - 0.5| ≤ 0.5 := by
      rw [abs_le]
      constructor <;> linarith
    have habs0 : 0 ≤ |fract (p + 0.25) - 0.5| := abs_nonneg _
    constructor <;> nlinarith

/-- Witness for C10 (amended): concrete Flat oscillator with amplitude 1. -/
theorem sample_mem_range_witness :
    -(Oscillator.mk Wave.Flat 1 ⟨0, 0, 0⟩ 0).amplitude ≤
        (Oscillator.mk Wave.Flat 1 ⟨0, 0, 0⟩ 0).sample ∧
      (Oscillator.mk Wave.Flat 1 ⟨0, 0, 0⟩ 0).sample ≤
        (Oscillator.mk Wave.Flat 1 ⟨0, 0, 0⟩ 0).amplitude :=
  sample_mem_range ⟨Wave.Flat, 1, ⟨0, 0, 0⟩, 0⟩ (by norm_num) (by norm_num)
    (by norm_num)

/-- C9: one animator pass maps each limb independently (no sibling limb is
touched); per limb it leaves the oscillator untouched, preserves every
segment's index and type id, writes each segment's rotation as the limb's
single sampled angle times that segment's own flex about the z axis, and is
a no-op on a limb with zero segments. -/
theorem animate_limb_segments_spec (limbs : List Limb) (i j : ℕ) (l : Limb) :
    (animate_limb_segments limbs)[i]? = (limbs[i]?).map animate_limb ∧
    (animate_limb l).oscillator = l.oscillator ∧
    ((animate_limb l).segments[j]?).map
        (fun s => (s.segment_index, s.type_id)) =
      (l.segments[j]?).map (fun s => (s.segment_index, s.type_id)) ∧
    ((animate_limb l).segments[j]?).map (fun s => s.transform.rotation) =
      (l.segments[j]?).map (fun s =>
        Quat.from_rotation_z
          (l.oscillator.sample * s.type_id.flex_for_segment s.segment_index)) ∧
    (l.segments = [] → animate_limb l = l) := by
  refine ⟨?_, rfl, ?_, ?_, ?_⟩
  · simp [animate_limb_segments, List.getElem?_map]
  · simp [animate_limb, animate_segment, List.getElem?_map, Option.map_map]
    rfl
  · simp [animate_limb, animate_segment, List.getElem?_map, Option.map_map]
    rfl
  · intro h
    cases l with
    | mk osc segs =>
      have h2 : segs = [] := h
      subst h2
      rfl

/-- Witness for C9: the animator is a no-op on a concrete limb with zero
segments. -/
theorem animate_limb_segments_spec_witness :
    animate_limb (⟨Oscillator.new Wave.Flat 1 0, []⟩ : Limb) =
      ⟨Oscillator.new Wave.Flat 1 0, []⟩ :=
  (animate_limb_segments_spec [] 0 0
    ⟨Oscillator.new Wave.Flat 1 0, []⟩).2.2.2.2 rfl

noncomputable section

/-- The oscillator used in the end-to-end scenario 3 model: its `sample()`
is exactly 0.2 rad (square wave of amplitude 0.2 at phase 0). -/
def scenarioOsc : Oscillator := ⟨Wave.Square, 0.2, Frequency.new 0.4, 0⟩

/-- Scenario-3 limb: three Rectangle-policy segments at indices 0, 1, 2. -/
def scenarioLimb : Limb :=
  { oscillator := scenarioOsc,
    segments :=
      [⟨0, LimbSegmentTypeId.Rectangle, ⟨⟨0⟩⟩⟩,
       ⟨1, LimbSegmentTypeId.Rectangle, ⟨⟨0⟩⟩⟩,
       ⟨2, LimbSegmentTypeId.Rectangle, ⟨⟨0⟩⟩⟩] }

/-- The rotations (z angles) the animator writes in scenario 3. -/
def scenarioRotations : List ℝ :=
  (animate_limb scenarioLimb).segments.map (fun s => s.transform.rotation.zAngle)

end

/-- The scenario oscillator samples exactly 0.2 rad. -/
theorem scenarioOsc_sample : scenarioOsc.sample = 0.2 := by
  simp [scenarioOsc, Oscillator.sample, TAU]

/-- The three scenario rotations, in terms of the Rectangle flex policy. -/
theorem scenarioRotations_eq :
    scenarioRotations =
      [0.2 * RectType.flex_for_segment 0,
       0.2 * RectType.flex_for_segment 1,
       0.2 * RectType.flex_for_segment 2] := by
  simp [scenarioRotations, scenarioLimb, animate_limb, animate_segment,
        scenarioOsc_sample, Quat.from_rotation_z,
        LimbSegmentTypeId.flex_for_segment]

/-- The Rectangle flex at index 0 is exactly 1. -/
theorem flexRect_zero : RectType.flex_for_segment 0 = 1 := by
  unfold RectType.flex_for_segment
  rw [Nat.cast_zero, Real.zero_rpow (by norm_num : (1.1:ℝ) ≠ 0)]
  norm_num

/-- The Rectangle flex at index 1 is exactly 1.1. -/
theorem flexRect_one : RectType.flex_for_segment 1 = 1.1 := by
  unfold RectType.flex_for_segment
  rw [Nat.cast_one, Real.one_rpow]
  norm_num

/-- The `2^0.1` raised to the tenth power is 2. -/
theorem two_rpow_tenth_pow :
    ((2:ℝ) ^ (0.1:ℝ)) ^ (10:ℕ) = 2 := by
  rw [← Real.rpow_natCast ((2:ℝ) ^ (0.1:ℝ)) 10,
      ← Real.rpow_mul (by norm_num : (0:ℝ) ≤ 2)]
  norm_num

/-- Rational lower bound on `2^0.1`. -/
theorem two_rpow_tenth_lb : (1.0717 : ℝ) < (2:ℝ) ^ (0.1:ℝ) := by
  by_contra h
  push_neg at h
  have hpow : ((2:ℝ) ^ (0.1:ℝ)) ^ (10:ℕ) ≤ (1.0717:ℝ) ^ (10:ℕ) :=
    pow_le_pow_left₀ (Real.rpow_nonneg (by norm_num) _) h 10
  rw [two_rpow_tenth_pow] at hpow
  norm_num at hpow

/-- Rational upper bound on `2^0.1`. -/
theorem two_rpow_tenth_ub : (2:ℝ) ^ (0.1:ℝ) < 1.0718 := by
  have hpow : ((2:ℝ) ^ (0.1:ℝ)) ^ (10:ℕ) < (1.0718:ℝ) ^ (10:ℕ) := by
    rw [two_rpow_tenth_pow]
    norm_num
  exact lt_of_pow_lt_pow_left₀ 10 (by norm_num) hpow

/-- The `2^1.1` splits as `2 · 2^0.1`. -/
theorem two_rpow_one_one : (2:ℝ) ^ (1.1:ℝ) = 2 * (2:ℝ) ^ (0.1:ℝ) := by
  rw [show (1.1:ℝ) = 1 + 0.1 by norm_num,
      Real.rpow_add (by norm_num : (0:ℝ) < 2), Real.rpow_one]

/-- Counterexample to C6 as stated: the code's rotations are
`[0.2, 0.22, ≈0.24287]`, and already the middle one is 0.002 away from the
claimed 0.222, beyond the 1e-3 tolerance. -/
theorem scenario3_counterexample :
    ¬ (|scenarioRotations.getD 0 0 - 0.2| ≤ 1e-3 ∧
       |scenarioRotations.getD 1 0 - 0.222| ≤ 1e-3 ∧
       |scenarioRotations.getD 2 0 - 0.2475| ≤ 1e-3) := by
  intro h
  have h1 := h.2.1
  rw [scenarioRotations_eq] at h1
  simp only [List.getD_cons_succ, List.getD_cons_zero] at h1
  rw [flexRect_one, abs_le] at h1
  norm_num at h1

/-- C6 (amended): with a sampled angle of 0.2 rad and the Rectangle flex
policy (base 1.1, pow 1.1) on segments 0, 1, 2 the written rotations are
within 1e-3 of `[0.2, 0.22, 0.2429]` rad. -/
theorem scenario3_rotations :
    |scenarioRotations.getD 0 0 - 0.2| ≤ 1e-3 ∧
    |scenarioRotations.getD 1 0 - 0.22| ≤ 1e-3 ∧
    |scenarioRotations.getD 2 0 - 0.2429| ≤ 1e-3 := by
  rw [scenarioRotations_eq]
  simp only [List.getD_cons_succ, List.getD_cons_zero]
  refine ⟨?_, ?_, ?_⟩
  · rw [flexRect_zero, abs_le]
    norm_num
  · rw [flexRect_one, abs_le]
    norm_num
  · unfold RectType.flex_for_segment
    rw [Nat.cast_ofNat, abs_le, two_rpow_one_one]
    have hlb := two_rpow_tenth_lb
    have hub := two_rpow_tenth_ub
    constructor <;> nlinarith

end CreatureSynth
